import Mathlib

/-!
Shallow embedding of `lib/Dialect/TritonGPU/Transforms/Pipeliner/TMAStoresPipeline.cpp`
(the TMA-store pipelining transform) together with proofs of its main
behavioural properties.

IR operations are modelled as a tree of operation kinds; the transform is
modelled as a pure function that returns the boolean result of
`pipelineTMAStores` and the ordered list of actions — instruction
emissions, descriptor inspections, erasures — it performs, in the order
the transform performs them (which, for the per-store rewrite sequences,
is also the order the emitted instructions occupy at the rewritten store's
position in the loop body).
-/

/-- Tensor type of a store source: shape and an opaque element-type code.
Models the `RankedTensorType` of `store.src` as used by the transform
(only shape and element type are consulted, through the allocation key and
the staging-buffer type). -/
structure TensorTy where
  shape : List Int
  elemType : Nat
deriving DecidableEq

/-- A descriptor value (`TypedValue<tt::TensorDescType>`).  `encoding`
models the descriptor block type's encoding, consulted by index
translation and by `getEncodingFromDescriptor`; `hostSide` models
`triton::isHostSideDescriptor`.  Modelled from the spec: the code of
`isHostSideDescriptor` is outside this file's source, and the spec says a
descriptor value exposes "whether it was constructed outside the loop
(host-side) or inside it (device-side), and a coordinate-encoding
accessor". -/
structure Desc where
  encoding : Nat
  hostSide : Bool
deriving DecidableEq

/-- Source value of a store (`TypedValue<RankedTensorType>`): an SSA value
identity plus its tensor type. -/
structure SrcVal where
  id : Nat
  ty : TensorTy
deriving DecidableEq

/-- The operation kinds the transform distinguishes: the three
implementations of `tt::DescriptorStoreLikeOpInterface`
(`DescriptorStoreOp`, `DescriptorReduceOp`, `DescriptorScatterOp`, each
carrying the operands the rewriter reads), nested `scf.for` loops, and
every other operation.  The reduction operator of `DescriptorReduceOp`
(`getKind()`) is an opaque code. -/
inductive OpKind where
  | descStore (desc : Desc) (src : SrcVal) (indices : List Int)
  | descReduce (kind : Nat) (desc : Desc) (src : SrcVal) (indices : List Int)
  | descScatter (desc : Desc) (src : SrcVal) (xOffsets : List Int) (yOffset : Int)
  | forOp
  | other
deriving DecidableEq

mutual
/-- An operation of a loop body: its identity (the `Operation *`), its
kind, and the operations nested in its regions, in order. -/
inductive Op where
  | mk (id : Nat) (kind : OpKind) (nested : OpList)
/-- A sequence of sibling operations. -/
inductive OpList where
  | nil
  | cons (o : Op) (os : OpList)
end

/-- Concatenation of sibling sequences. -/
def OpList.append : OpList → OpList → OpList
  | .nil, l => l
  | .cons o os, l => .cons o (OpList.append os l)

/-- The record the collector keeps per store (struct `TMAStore`): the
operation identity, its kind (what `dyn_cast` on `store.op` will see
again in the rewriter), and the `desc` / `src` operands. -/
structure TMAStore where
  op : Nat
  kind : OpKind
  desc : Desc
  src : SrcVal
deriving DecidableEq

/-- Models `dyn_cast<tt::DescriptorStoreLikeOpInterface>`: succeeds
exactly on the three store-like kinds, building the collector's record
from `getDesc()` and `getSrc()`. -/
def OpKind.storeRecord (id : Nat) : OpKind → Option TMAStore
  | k@(.descStore d s _) => some ⟨id, k, d, s⟩
  | k@(.descReduce _ d s _) => some ⟨id, k, d, s⟩
  | k@(.descScatter d s _ _) => some ⟨id, k, d, s⟩
  | _ => none

/-- Whether a kind implements the store-like interface. -/
def OpKind.isStoreLike : OpKind → Bool
  | .descStore _ _ _ => true
  | .descReduce _ _ _ _ => true
  | .descScatter _ _ _ _ => true
  | _ => false

mutual
/-- Body of the pre-order walk of `getTMAStores`: a store-like operation
is recorded and the walk advances into its regions; a nested `scf.for`
is skipped together with its whole subtree; any other operation is
walked into. -/
def collectOp : Op → List TMAStore
  | .mk id k cs =>
    match OpKind.storeRecord id k with
    | some r => r :: collectList cs
    | none => if k = OpKind.forOp then [] else collectList cs
/-- The walk over a sequence of sibling operations. -/
def collectList : OpList → List TMAStore
  | .nil => []
  | .cons o os => collectOp o ++ collectList os
end

/-- `getTMAStores`: the ordered list of store-like operations of a loop
body, found by a pre-order walk that does not enter nested loops. -/
def getTMAStores (body : OpList) : List TMAStore :=
  collectList body

mutual
/-- Specification-side collector, written from the spec's words: walk the
body in pre-order and record every store-like operation encountered,
except that an operation lying inside a nested loop's subtree is never
recorded (its stores "belong to their own, inner pipelining pass").  The
flag says whether the current operation lies under a nested loop. -/
def specOp (inNested : Bool) : Op → List TMAStore
  | .mk id k cs =>
    (if inNested then [] else (OpKind.storeRecord id k).toList)
      ++ specList (inNested || decide (k = OpKind.forOp)) cs
/-- Specification-side collector over a sequence of siblings. -/
def specList : Bool → OpList → List TMAStore
  | _, .nil => []
  | b, .cons o os => specOp b o ++ specList b os
end

/-- One action of the transform.  Each constructor is either an
instruction the transform inserts (`allocBuf` = `ttg::LocalAllocOp`,
`wait` = `ttng::TMAStoreWaitOp`, `stage` = `ttg::LocalStoreOp`,
`fence` = `ttng::FenceAsyncSharedOp`, `issueCopy` =
`ttng::AsyncTMACopyLocalToGlobalOp`, `issueReduce` =
`ttng::AsyncTMAReduceOp`, `issueScatter` = `ttng::AsyncTMAScatterOp`,
`deallocBuf` = `ttg::LocalDeallocOp`), or a non-instruction action:
`inspectDesc` is one evaluation of `isHostSideDescriptor` inside the
`llvm::any_of`, `eraseOp` is `store.op->erase()`, and
`invokeDescPipeline` is the call of the descriptor-pipelining
collaborator `lowerTMADescriptors` with its `CoarseSchedule` depth.
Staging buffers are numbered in allocation order. -/
inductive Event where
  | allocBuf (buf : Nat) (shape : List Int) (elemType : Nat) (encoding : Nat)
      (mutableMem : Bool)
  | inspectDesc (op : Nat) (hostSide : Bool)
  | wait (pendings : Nat)
  | stage (src : Nat) (buf : Nat)
  | fence (bCluster : Bool)
  | issueCopy (desc : Desc) (indices : List Int) (buf : Nat)
  | issueReduce (kind : Nat) (desc : Desc) (indices : List Int) (buf : Nat)
  | issueScatter (desc : Desc) (xOffsets : List Int) (yOffset : Int) (buf : Nat)
  | eraseOp (op : Nat)
  | deallocBuf (buf : Nat)
  | invokeDescPipeline (maxStage : Nat)
deriving DecidableEq

/-- Discriminator for buffer-allocation instructions. -/
def Event.isAlloc : Event → Bool
  | .allocBuf _ _ _ _ _ => true
  | _ => false

/-- Discriminator for descriptor inspections. -/
def Event.isInspect : Event → Bool
  | .inspectDesc _ _ => true
  | _ => false

/-- Discriminator for the three asynchronous issue instructions. -/
def Event.isIssue : Event → Bool
  | .issueCopy _ _ _ => true
  | .issueReduce _ _ _ _ => true
  | .issueScatter _ _ _ _ => true
  | _ => false

/-- Discriminator for store erasures. -/
def Event.isErase : Event → Bool
  | .eraseOp _ => true
  | _ => false

/-- Discriminator for buffer deallocations. -/
def Event.isDealloc : Event → Bool
  | .deallocBuf _ => true
  | _ => false

/-- Discriminator for the descriptor-pipelining invocation. -/
def Event.isInvoke : Event → Bool
  | .invokeDescPipeline _ => true
  | _ => false

/-- First value bound to a key in an association list (`DenseMap` find). -/
def assocFind {α β : Type} [DecidableEq α] : List (α × β) → α → Option β
  | [], _ => none
  | (k, v) :: rest, a => if k = a then some v else assocFind rest a

/-- Bind a key to a value in an association list, overwriting an existing
binding (`DenseMap` `operator[]` assignment). -/
def assocUpdate {α β : Type} [DecidableEq α] : List (α × β) → α → β → List (α × β)
  | [], a, b => [(a, b)]
  | (k, v) :: rest, a, b =>
    if k = a then (a, b) :: rest else (k, v) :: assocUpdate rest a b

/-- The allocation key of a store: the shape and element type of its
source tensor (`std::make_pair(srcTy.getShape(), srcTy.getElementType())`). -/
def storeKey (s : TMAStore) : List Int × Nat :=
  (s.src.ty.shape, s.src.ty.elemType)

/-- Models `getEncodingFromDescriptor`.  Modelled from the spec: the code
of `getEncodingFromDescriptor` is outside this file's source; the spec
says the buffer's layout uses "an accelerator-specific on-chip memory
encoding computed from the target descriptor", so it is modelled as the
descriptor's encoding. -/
def getEncodingFromDescriptor (d : Desc) : Nat :=
  d.encoding

/-- `createAlloc`: the `ttg::LocalAllocOp` inserted before the loop for a
store, with the staging buffer's memdesc built from the source tensor's
shape and element type, the encoding computed from the descriptor, and
`mutableMemory = true`. -/
def createAlloc (s : TMAStore) (buf : Nat) : Event :=
  .allocBuf buf s.src.ty.shape s.src.ty.elemType
    (getEncodingFromDescriptor s.desc) true

/-- State of the allocation loop of `pipelineTMAStores`: the
`LocalAllocOp`s emitted so far, the key-to-buffer map `allocs`, the
per-store map `storeToAlloc`, and the next fresh buffer number. -/
structure AllocState where
  events : List Event
  allocs : List ((List Int × Nat) × Nat)
  storeToAlloc : List (Nat × Nat)
  nextBuf : Nat

/-- One iteration of the allocation loop: look the store's key up in
`allocs`; if absent, create a new staging buffer for the key; record the
store's buffer in `storeToAlloc`. -/
def allocStep (st : AllocState) (s : TMAStore) : AllocState :=
  match assocFind st.allocs (storeKey s) with
  | some buf => { st with storeToAlloc := assocUpdate st.storeToAlloc s.op buf }
  | none =>
    { events := st.events ++ [createAlloc s st.nextBuf],
      allocs := st.allocs ++ [(storeKey s, st.nextBuf)],
      storeToAlloc := assocUpdate st.storeToAlloc s.op st.nextBuf,
      nextBuf := st.nextBuf + 1 }

/-- The whole allocation loop, starting from empty maps. -/
def allocPhase (stores : List TMAStore) : AllocState :=
  stores.foldl allocStep ⟨[], [], [], 0⟩

/-- The buffer `storeToAlloc` assigns to an operation after the
allocation loop ran over `stores`. -/
def bufAssigned (stores : List TMAStore) (op : Nat) : Nat :=
  (assocFind (allocPhase stores).storeToAlloc op).getD 0

/-- Models `translateTMAIndices` as a pure translation of loop-level
indices into the descriptor's coordinate encoding.  Modelled from the
spec: the code of `translateTMAIndices` is outside this file's source;
the spec treats it as the descriptor's "coordinate-encoding accessor used
for index translation", a value-level translation of the index list. -/
def TranslateFn : Type :=
  Nat → List Int → List Int

/-- The variant dispatch of `createTMAAsyncCopy`: `dyn_cast` to
`DescriptorStoreOp`, else `dyn_cast` to `DescriptorReduceOp`, else an
unchecked `cast` to `DescriptorScatterOp` which fails (`none`) on any
other kind.  For the first two variants the code computes
`translateTMAIndices` into a local (`indices`) but passes the original
`getIndices()` operand to the issued instruction; the scatter variant
passes its offset operands directly. -/
def issueDispatch (translate : TranslateFn) (s : TMAStore) (alloc : Nat) :
    Option (List Event) :=
  match s.kind with
  | .descStore d _ idx =>
    let indices := translate d.encoding idx
    some [Event.issueCopy s.desc idx alloc]
  | .descReduce k d _ idx =>
    let indices := translate d.encoding idx
    some [Event.issueReduce k s.desc idx alloc]
  | .descScatter _ _ xs y =>
    some [Event.issueScatter s.desc xs y alloc]
  | _ => none

/-- The issue instruction of a store's variant, as a plain list (one
instruction for each store-like kind, none otherwise). -/
def issueEventOf (s : TMAStore) (alloc : Nat) : List Event :=
  match s.kind with
  | .descStore _ _ idx => [Event.issueCopy s.desc idx alloc]
  | .descReduce k _ _ idx => [Event.issueReduce k s.desc idx alloc]
  | .descScatter _ _ xs y => [Event.issueScatter s.desc xs y alloc]
  | _ => []

/-- `createTMAAsyncCopy`: insert, at the store's position, a wait for
zero outstanding transfers, the staging `LocalStoreOp`, the visibility
fence (`FenceAsyncSharedOp` with `bCluster = false`), then the
variant-specific issue instruction, and finally erase the original store.
`none` models the fatal failure of the unchecked scatter cast. -/
def createTMAAsyncCopy (translate : TranslateFn) (s : TMAStore) (alloc : Nat) :
    Option (List Event) :=
  match issueDispatch translate s alloc with
  | some iss =>
    some ([Event.wait 0, Event.stage s.src.id alloc, Event.fence false]
      ++ iss ++ [Event.eraseOp s.op])
  | none => none

/-- The rewrite block of one store: wait, stage, fence, issue, erase. -/
def storeBlock (s : TMAStore) (alloc : Nat) : List Event :=
  [Event.wait 0, Event.stage s.src.id alloc, Event.fence false]
    ++ issueEventOf s alloc ++ [Event.eraseOp s.op]

/-- The rewrite loop of `pipelineTMAStores`: run `createTMAAsyncCopy` on
every collected store with its buffer from `storeToAlloc`. -/
def rewriteAll (translate : TranslateFn) (storeToAlloc : List (Nat × Nat)) :
    List TMAStore → Option (List Event)
  | [] => some []
  | s :: rest =>
    match createTMAAsyncCopy translate s ((assocFind storeToAlloc s.op).getD 0),
        rewriteAll translate storeToAlloc rest with
    | some evs, some evss => some (evs ++ evss)
    | _, _ => none

/-- The evaluation trail of `llvm::any_of(tmaStores, ...)` computing
`hasDeviceSideTMA`: descriptors are inspected in order until the first
device-side one is found (short-circuit), each inspection being one call
of `isHostSideDescriptor`. -/
def inspectTrail : List TMAStore → List Event
  | [] => []
  | s :: rest =>
    Event.inspectDesc s.op s.desc.hostSide ::
      (if s.desc.hostSide then inspectTrail rest else [])

/-- `lowerTMADescriptorCreation`: invoke the descriptor-pipelining
collaborator `lowerTMADescriptors` with a `CoarseSchedule` of
`max_stage = 3`. -/
def lowerTMADescriptorCreation : List Event :=
  [Event.invokeDescPipeline 3]

/-- `pipelineTMAStores`: collect the stores; if there are none, return
`false` having done nothing.  Otherwise run the allocation loop, evaluate
`hasDeviceSideTMA` over the collected stores, rewrite every store, emit
the epilogue — one wait for zero outstanding transfers, then one
`LocalDeallocOp` per entry of the `storeToAlloc` map — then, if some
descriptor was device-side, invoke the descriptor-pipelining
collaborator; return `true`.  The trace lists the actions in the order
the transform performs them; `hasDeviceSideTMA` is evaluated after the
allocation loop and before any rewrite, which is where its
`inspectTrail` sits. -/
def pipelineTMAStores (translate : TranslateFn) (body : OpList) :
    Option (Bool × List Event) :=
  if (getTMAStores body).isEmpty then some (false, [])
  else
    match rewriteAll translate (allocPhase (getTMAStores body)).storeToAlloc
        (getTMAStores body) with
    | none => none
    | some rewriteEvs =>
      some (true,
        (allocPhase (getTMAStores body)).events
          ++ inspectTrail (getTMAStores body)
          ++ rewriteEvs
          ++ [Event.wait 0]
          ++ (allocPhase (getTMAStores body)).storeToAlloc.map
              (fun p => Event.deallocBuf p.2)
          ++ (if (getTMAStores body).any (fun s => !s.desc.hostSide) then
                lowerTMADescriptorCreation
              else []))

/-- The full action trace of a successful run of the transform, in closed
form. -/
def pipelineTrace (body : OpList) : List Event :=
  (allocPhase (getTMAStores body)).events
    ++ inspectTrail (getTMAStores body)
    ++ (getTMAStores body).flatMap
        (fun s => storeBlock s (bufAssigned (getTMAStores body) s.op))
    ++ [Event.wait 0]
    ++ (allocPhase (getTMAStores body)).storeToAlloc.map
        (fun p => Event.deallocBuf p.2)
    ++ (if (getTMAStores body).any (fun s => !s.desc.hostSide) then
          lowerTMADescriptorCreation
        else [])

/-- Example descriptor constructed host-side. -/
def exDescH : Desc := ⟨0, true⟩

/-- Example descriptor constructed device-side. -/
def exDescD : Desc := ⟨1, false⟩

/-- Example 4-by-4 tensor type. -/
def exTyA : TensorTy := ⟨[4, 4], 0⟩

/-- Example 8-element tensor type. -/
def exTyB : TensorTy := ⟨[8], 0⟩

/-- Identity index translation. -/
def idTranslate : TranslateFn := fun _ idx => idx

/-- An index translation that shifts every coordinate by one. -/
def shiftTranslate : TranslateFn := fun _ idx => idx.map (fun i => i + 1)

/-- A loop body with no eligible store: an unrelated operation and a
nested loop holding a store. -/
def exBodyNoStore : OpList :=
  .cons (.mk 1 .other .nil)
    (.cons
      (.mk 2 .forOp
        (.cons (.mk 3 (.descStore exDescH ⟨10, exTyA⟩ [0]) .nil) .nil))
      .nil)

/-- A loop body with one plain store with a device-side descriptor. -/
def exBodyOne : OpList :=
  .cons (.mk 1 (.descStore exDescD ⟨10, exTyA⟩ [5]) .nil) .nil

/-- The store record the collector builds from `exBodyOne`. -/
def exSOne : TMAStore :=
  ⟨1, .descStore exDescD ⟨10, exTyA⟩ [5], exDescD, ⟨10, exTyA⟩⟩

/-- A loop body with two plain stores of identical shape and element
type. -/
def exBodyTwo : OpList :=
  .cons (.mk 1 (.descStore exDescH ⟨10, exTyA⟩ [0]) .nil)
    (.cons (.mk 2 (.descStore exDescH ⟨11, exTyA⟩ [4]) .nil) .nil)

/-- A loop body with a plain store and a reduction store, both with
destination index 5. -/
def exBodyTrans : OpList :=
  .cons (.mk 1 (.descStore exDescH ⟨10, exTyA⟩ [5]) .nil)
    (.cons (.mk 2 (.descReduce 7 exDescH ⟨11, exTyA⟩ [5]) .nil) .nil)

/-- A loop body with stores S1, S2 of one shape and S3 of another. -/
def exBodyThree : OpList :=
  .cons (.mk 1 (.descStore exDescH ⟨10, exTyA⟩ [0]) .nil)
    (.cons (.mk 2 (.descStore exDescH ⟨11, exTyA⟩ [1]) .nil)
      (.cons (.mk 3 (.descStore exDescH ⟨12, exTyB⟩ [2]) .nil) .nil))

/-- The three store records the collector builds from `exBodyThree`. -/
def exS1 : TMAStore :=
  ⟨1, .descStore exDescH ⟨10, exTyA⟩ [0], exDescH, ⟨10, exTyA⟩⟩

/-- Second store record of `exBodyThree` (same key as the first). -/
def exS2 : TMAStore :=
  ⟨2, .descStore exDescH ⟨11, exTyA⟩ [1], exDescH, ⟨11, exTyA⟩⟩

/-- Third store record of `exBodyThree` (a different key). -/
def exS3 : TMAStore :=
  ⟨3, .descStore exDescH ⟨12, exTyB⟩ [2], exDescH, ⟨12, exTyB⟩⟩

/-- A loop body with one store of each variant. -/
def exBodyMixed : OpList :=
  .cons (.mk 1 (.descStore exDescH ⟨10, exTyA⟩ [0]) .nil)
    (.cons (.mk 2 (.descReduce 7 exDescH ⟨11, exTyA⟩ [1]) .nil)
      (.cons (.mk 3 (.descScatter exDescD ⟨12, exTyB⟩ [2, 3] 4) .nil) .nil))

/-- A scatter-store record, as the collector would build it. -/
def exScatterStore : TMAStore :=
  ⟨3, .descScatter exDescD ⟨12, exTyB⟩ [2, 3] 4, exDescD, ⟨12, exTyB⟩⟩

/-- A record produced by `storeRecord` carries the given identity and a
store-like kind. -/
theorem storeRecord_some {id : Nat} {k : OpKind} {r : TMAStore}
    (h : OpKind.storeRecord id k = some r) :
    r.op = id ∧ r.kind = k ∧ k.isStoreLike = true := by
  cases k <;> simp [OpKind.storeRecord, OpKind.isStoreLike] at h ⊢ <;>
    simp [← h]

/-- A store-like kind is not a nested loop. -/
theorem isStoreLike_ne_forOp {k : OpKind} (h : k.isStoreLike = true) :
    k ≠ OpKind.forOp := by
  cases k <;> simp [OpKind.isStoreLike] at h ⊢

mutual
/-- Every record the walk produces comes from a store-like operation. -/
def collectOp_storeLike : (o : Op) → ∀ s ∈ collectOp o, s.kind.isStoreLike = true
  | .mk id k cs => fun s hs => by
    rw [collectOp] at hs
    cases hrec : OpKind.storeRecord id k with
    | some r =>
      rw [hrec] at hs
      rcases List.mem_cons.mp hs with h | h
      · subst h
        rcases storeRecord_some hrec with ⟨_, hk, hsl⟩
        rw [hk]; exact hsl
      · exact collectList_storeLike cs s h
    | none =>
      rw [hrec] at hs
      by_cases hk : k = OpKind.forOp
      · rw [if_pos hk] at hs; cases hs
      · rw [if_neg hk] at hs; exact collectList_storeLike cs s hs
/-- Every record of the walk over a sibling sequence is store-like. -/
def collectList_storeLike : (os : OpList) → ∀ s ∈ collectList os,
    s.kind.isStoreLike = true
  | .nil => fun s hs => by rw [collectList] at hs; cases hs
  | .cons o os => fun s hs => by
    rw [collectList] at hs
    rcases List.mem_append.mp hs with h | h
    · exact collectOp_storeLike o s h
    · exact collectList_storeLike os s h
end

/-- Every collected store is store-like: the collector only admits the
known store interface. -/
theorem getTMAStores_storeLike (body : OpList) :
    ∀ s ∈ getTMAStores body, s.kind.isStoreLike = true :=
  collectList_storeLike body

/-- For a store-like record the variant dispatch succeeds and returns the
variant's issue instruction; the translated indices it computes on the
way are discarded, so the result does not depend on the translation. -/
theorem issueDispatch_eq (translate : TranslateFn) (s : TMAStore) (a : Nat)
    (h : s.kind.isStoreLike = true) :
    issueDispatch translate s a = some (issueEventOf s a) := by
  rcases s with ⟨op, k, d0, s0⟩
  cases k <;> simp_all [OpKind.isStoreLike, issueDispatch, issueEventOf]

/-- For a store-like record `createTMAAsyncCopy` succeeds and emits the
wait/stage/fence/issue/erase block. -/
theorem createTMAAsyncCopy_eq (translate : TranslateFn) (s : TMAStore) (a : Nat)
    (h : s.kind.isStoreLike = true) :
    createTMAAsyncCopy translate s a = some (storeBlock s a) := by
  rw [createTMAAsyncCopy, issueDispatch_eq translate s a h, storeBlock]

/-- When every store of the list is store-like, the rewrite loop succeeds
and emits the per-store blocks in order. -/
theorem rewriteAll_eq (translate : TranslateFn) (m : List (Nat × Nat)) :
    ∀ stores : List TMAStore, (∀ s ∈ stores, s.kind.isStoreLike = true) →
      rewriteAll translate m stores =
        some (stores.flatMap
          (fun s => storeBlock s ((assocFind m s.op).getD 0)))
  | [], _ => by rw [rewriteAll]; rfl
  | s :: rest, h => by
    rw [rewriteAll, createTMAAsyncCopy_eq translate s _ (h s (List.mem_cons_self s rest)),
      rewriteAll_eq translate m rest (fun x hx => h x (List.mem_cons_of_mem s hx))]
    rw [List.flatMap_cons]

/-- For a loop with at least one collected store the transform returns
`true` and performs exactly the actions of `pipelineTrace`. -/
theorem pipeline_eq (translate : TranslateFn) (body : OpList)
    (hne : getTMAStores body ≠ []) :
    pipelineTMAStores translate body = some (true, pipelineTrace body) := by
  rw [pipelineTMAStores,
    if_neg (by simpa [List.isEmpty_iff] using hne),
    rewriteAll_eq translate _ _ (getTMAStores_storeLike body)]
  rfl

/-- An allocation instruction is no other kind of action. -/
theorem isAlloc_spec {e : Event} (h : e.isAlloc = true) :
    e.isInspect = false ∧ e.isIssue = false ∧ e.isErase = false ∧
      e.isDealloc = false ∧ e.isInvoke = false := by
  cases e <;> simp_all [Event.isAlloc, Event.isInspect, Event.isIssue,
    Event.isErase, Event.isDealloc, Event.isInvoke]

/-- A descriptor inspection is no other kind of action. -/
theorem isInspect_spec {e : Event} (h : e.isInspect = true) :
    e.isAlloc = false ∧ e.isIssue = false ∧ e.isErase = false ∧
      e.isDealloc = false ∧ e.isInvoke = false := by
  cases e <;> simp_all [Event.isAlloc, Event.isInspect, Event.isIssue,
    Event.isErase, Event.isDealloc, Event.isInvoke]

/-- The allocation loop only ever emits `LocalAllocOp`s. -/
theorem foldl_allocStep_events :
    ∀ (stores : List TMAStore) (st : AllocState),
      (∀ e ∈ st.events, e.isAlloc = true) →
      ∀ e ∈ (stores.foldl allocStep st).events, e.isAlloc = true
  | [], _, h => h
  | s :: rest, st, h => by
    rw [List.foldl_cons]
    refine foldl_allocStep_events rest (allocStep st s) ?_
    intro e he
    rw [allocStep] at he
    cases hf : assocFind st.allocs (storeKey s) with
    | some buf => rw [hf] at he; exact h e he
    | none =>
      rw [hf] at he
      rcases List.mem_append.mp he with h' | h'
      · exact h e h'
      · rcases List.mem_singleton.mp h' with rfl
        rfl

/-- Every action of the allocation phase is a `LocalAllocOp`. -/
theorem allocPhase_events_alloc (stores : List TMAStore) :
    ∀ e ∈ (allocPhase stores).events, e.isAlloc = true :=
  foldl_allocStep_events stores ⟨[], [], [], 0⟩ (by intro e he; cases he)

/-- Every action of the `hasDeviceSideTMA` evaluation is an inspection. -/
theorem inspectTrail_inspect :
    ∀ (stores : List TMAStore), ∀ e ∈ inspectTrail stores, e.isInspect = true
  | [], e, he => by rw [inspectTrail] at he; cases he
  | s :: rest, e, he => by
    rw [inspectTrail] at he
    rcases List.mem_cons.mp he with rfl | h'
    · rfl
    · by_cases hh : s.desc.hostSide
      · rw [if_pos hh] at h'
        exact inspectTrail_inspect rest e h'
      · rw [if_neg hh] at h'
        cases h'

/-- An action of a rewrite block is a wait, stage, fence, issue or erase:
never an allocation, inspection, deallocation or collaborator invocation. -/
theorem mem_storeBlock_spec {s : TMAStore} {a : Nat} {e : Event}
    (h : e ∈ storeBlock s a) :
    e.isInspect = false ∧ e.isInvoke = false ∧ e.isDealloc = false ∧
      e.isAlloc = false := by
  rcases s with ⟨op, k, d0, s0⟩
  cases k <;> simp [storeBlock, issueEventOf] at h <;>
    rcases h with rfl | rfl | rfl | rfl | rfl <;>
    exact ⟨rfl, rfl, rfl, rfl⟩

/-- The erase instructions of a rewrite block: exactly the erasure of its
own store. -/
theorem filter_storeBlock_erase (s : TMAStore) (a : Nat) :
    (storeBlock s a).filter Event.isErase = [Event.eraseOp s.op] := by
  rcases s with ⟨op, k, d0, s0⟩
  cases k <;> rfl

/-- The issue instructions of a rewrite block: exactly the store's own
variant-specific issue. -/
theorem filter_storeBlock_issue (s : TMAStore) (a : Nat) :
    (storeBlock s a).filter Event.isIssue = issueEventOf s a := by
  rcases s with ⟨op, k, d0, s0⟩
  cases k <;> rfl

/-- The erasures of the whole rewrite loop, in order: one per collected
store. -/
theorem filter_blocks_erase :
    ∀ (stores : List TMAStore) (f : TMAStore → Nat),
      ((stores.flatMap (fun s => storeBlock s (f s))).filter Event.isErase)
        = stores.map (fun s => Event.eraseOp s.op)
  | [], _ => rfl
  | s :: rest, f => by
    rw [List.flatMap_cons, List.filter_append, filter_storeBlock_erase,
      filter_blocks_erase rest f, List.map_cons, List.singleton_append]

/-- The issue instructions of the whole rewrite loop, in order: one block
per collected store. -/
theorem filter_blocks_issue :
    ∀ (stores : List TMAStore) (f : TMAStore → Nat),
      ((stores.flatMap (fun s => storeBlock s (f s))).filter Event.isIssue)
        = stores.flatMap (fun s => issueEventOf s (f s))
  | [], _ => rfl
  | s :: rest, f => by
    rw [List.flatMap_cons, List.filter_append, filter_storeBlock_issue,
      filter_blocks_issue rest f, List.flatMap_cons]

/-- A store-like record has exactly one issue instruction. -/
theorem issueEventOf_length {s : TMAStore} (h : s.kind.isStoreLike = true)
    (a : Nat) : (issueEventOf s a).length = 1 := by
  rcases s with ⟨op, k, d0, s0⟩
  cases k <;> simp_all [OpKind.isStoreLike, issueEventOf]

mutual
/-- The specification-side collector records nothing under a nested loop. -/
def specOp_true : (o : Op) → specOp true o = []
  | .mk id k cs => by
    rw [specOp]
    simp [specList_true cs]
/-- The specification-side collector records nothing under a nested loop
(sibling sequences). -/
def specList_true : (os : OpList) → specList true os = []
  | .nil => by rw [specList]
  | .cons o os => by
    rw [specList, specOp_true o, specList_true os]
    rfl
end

mutual
/-- The walk of one operation agrees with the specification-side collector. -/
def collectOp_spec : (o : Op) → collectOp o = specOp false o
  | .mk id k cs => by
    rw [collectOp, specOp]
    cases hrec : OpKind.storeRecord id k with
    | some r =>
      have hsl := (storeRecord_some hrec).2.2
      have hne := isStoreLike_ne_forOp hsl
      simp [hne, collectList_spec cs]
    | none =>
      by_cases hfor : k = OpKind.forOp
      · simp [hfor, specList_true cs]
      · simp [hfor, collectList_spec cs]
/-- The walk of a sibling sequence agrees with the specification-side
collector. -/
def collectList_spec : (os : OpList) → collectList os = specList false os
  | .nil => by rw [collectList, specList]
  | .cons o os => by rw [collectList, specList, collectOp_spec o, collectList_spec os]
end

/-- Skipping: a nested loop contributes nothing to the walk. -/
theorem collectOp_forOp (id : Nat) (cs : OpList) :
    collectOp (.mk id .forOp cs) = [] := by
  rw [collectOp]
  rfl

/-- The walk distributes over concatenation of sibling sequences. -/
theorem collectList_append :
    ∀ (a b : OpList), collectList (OpList.append a b)
      = collectList a ++ collectList b
  | .nil, b => by rw [OpList.append, collectList, List.nil_append]
  | .cons o os, b => by
    rw [OpList.append, collectList, collectList, collectList_append os b,
      List.append_assoc]

/-- A binding found in a map is still found after appending entries. -/
theorem assocFind_append_some {α β : Type} [DecidableEq α]
    {l : List (α × β)} {k : α} {b : β} (h : assocFind l k = some b)
    (l2 : List (α × β)) : assocFind (l ++ l2) k = some b := by
  induction l with
  | nil => rw [assocFind] at h; cases h
  | cons p rest ih =>
    rcases p with ⟨k0, v0⟩
    rw [assocFind] at h
    rw [List.cons_append, assocFind]
    by_cases hk : k0 = k
    · rw [if_pos hk] at h ⊢; exact h
    · rw [if_neg hk] at h ⊢; exact ih h

/-- Finding a key absent from a map looks it up in the appended entries. -/
theorem assocFind_append_none {α β : Type} [DecidableEq α]
    {l : List (α × β)} {k : α} (h : assocFind l k = none)
    (l2 : List (α × β)) : assocFind (l ++ l2) k = assocFind l2 k := by
  induction l with
  | nil => rw [List.nil_append]
  | cons p rest ih =>
    rcases p with ⟨k0, v0⟩
    rw [assocFind] at h
    rw [List.cons_append, assocFind]
    by_cases hk : k0 = k
    · rw [if_pos hk] at h; cases h
    · rw [if_neg hk] at h ⊢; exact ih h

/-- After binding a key, finding that key yields the bound value. -/
theorem assocFind_update_self {α β : Type} [DecidableEq α]
    (l : List (α × β)) (a : α) (b : β) :
    assocFind (assocUpdate l a b) a = some b := by
  induction l with
  | nil => rw [assocUpdate, assocFind, if_pos rfl]
  | cons p rest ih =>
    rcases p with ⟨k0, v0⟩
    rw [assocUpdate]
    by_cases hk : k0 = a
    · rw [if_pos hk, assocFind, if_pos rfl]
    · rw [if_neg hk, assocFind, if_neg hk]
      exact ih

/-- Binding one key leaves the binding of any other key unchanged. -/
theorem assocFind_update_ne {α β : Type} [DecidableEq α]
    {l : List (α × β)} {a a' : α} (b : β) (h : a ≠ a') :
    assocFind (assocUpdate l a b) a' = assocFind l a' := by
  induction l with
  | nil => simp [assocUpdate, assocFind, h]
  | cons p rest ih =>
    rcases p with ⟨k0, v0⟩
    rw [assocUpdate]
    by_cases hk : k0 = a
    · subst hk
      simp [assocFind, h]
    · rw [if_neg hk]
      simp [assocFind, ih]

/-- A found binding is an entry of the map. -/
theorem assocFind_some_mem {α β : Type} [DecidableEq α]
    {l : List (α × β)} {k : α} {b : β} (h : assocFind l k = some b) :
    (k, b) ∈ l := by
  induction l with
  | nil => rw [assocFind] at h; cases h
  | cons p rest ih =>
    rcases p with ⟨k0, v0⟩
    rw [assocFind] at h
    by_cases hk : k0 = k
    · subst hk
      rw [if_pos rfl] at h
      injection h with hb
      subst hb
      exact List.mem_cons_self _ _
    · rw [if_neg hk] at h
      exact List.mem_cons_of_mem _ (ih h)

/-- An absent key heads no entry of the map. -/
theorem assocFind_none_not_mem {α β : Type} [DecidableEq α]
    {l : List (α × β)} {k : α} (h : assocFind l k = none) :
    k ∉ l.map Prod.fst := by
  induction l with
  | nil => intro hm; cases hm
  | cons p rest ih =>
    rcases p with ⟨k0, v0⟩
    rw [assocFind] at h
    by_cases hk : k0 = k
    · rw [if_pos hk] at h; cases h
    · rw [if_neg hk] at h
      rw [List.map_cons]
      intro hmem
      rcases List.mem_cons.mp hmem with h' | h'
      · exact hk h'.symm
      · exact ih h h'

/-- With pairwise-distinct values, two keys bound to the same value are
equal. -/
theorem assocFind_inj {α β : Type} [DecidableEq α]
    {l : List (α × β)} (hn : (l.map Prod.snd).Nodup)
    {k1 k2 : α} {b : β} (h1 : assocFind l k1 = some b)
    (h2 : assocFind l k2 = some b) : k1 = k2 := by
  induction l with
  | nil => rw [assocFind] at h1; cases h1
  | cons p rest ih =>
    rcases p with ⟨k0, v0⟩
    rw [List.map_cons, List.nodup_cons] at hn
    rw [assocFind] at h1 h2
    by_cases e1 : k0 = k1 <;> by_cases e2 : k0 = k2
    · rw [← e1, ← e2]
    · rw [if_pos e1] at h1
      rw [if_neg e2] at h2
      injection h1 with hb
      exact absurd (List.mem_map.mpr ⟨(k2, b), assocFind_some_mem h2, rfl⟩)
        (hb ▸ hn.1)
    · rw [if_neg e1] at h1
      rw [if_pos e2] at h2
      injection h2 with hb
      exact absurd (List.mem_map.mpr ⟨(k1, b), assocFind_some_mem h1, rfl⟩)
        (hb ▸ hn.1)
    · rw [if_neg e1] at h1
      rw [if_neg e2] at h2
      exact ih hn.2 h1 h2

/-- Invariant of the allocation loop: every buffer of the key-to-buffer
map is below the fresh counter, buffers are pairwise distinct, and each
key occurs at most once. -/
def AllocInv (st : AllocState) : Prop :=
  (∀ p ∈ st.allocs, p.2 < st.nextBuf)
  ∧ (st.allocs.map Prod.snd).Nodup
  ∧ (st.allocs.map Prod.fst).Nodup

/-- One allocation step preserves the invariant. -/
theorem allocStep_inv {st : AllocState} (s : TMAStore) (h : AllocInv st) :
    AllocInv (allocStep st s) := by
  rcases h with ⟨hb, hsn, hfn⟩
  rw [allocStep]
  cases hf : assocFind st.allocs (storeKey s) with
  | some buf => exact ⟨hb, hsn, hfn⟩
  | none =>
    refine ⟨?_, ?_, ?_⟩
    · intro p hp
      rcases List.mem_append.mp hp with h' | h'
      · exact Nat.lt_succ_of_lt (hb p h')
      · rcases List.mem_singleton.mp h' with rfl
        exact Nat.lt_succ_self _
    · rw [List.map_append]
      refine List.Nodup.append hsn (List.nodup_singleton _) ?_
      intro b hb1 hb2
      rcases List.mem_map.mp hb1 with ⟨p, hp, rfl⟩
      rcases List.mem_singleton.mp hb2 with h'
      exact absurd (hb p hp) (by rw [h']; exact Nat.lt_irrefl _)
    · rw [List.map_append]
      refine List.Nodup.append hfn (List.nodup_singleton _) ?_
      intro k hk1 hk2
      rcases List.mem_singleton.mp hk2 with rfl
      exact assocFind_none_not_mem hf hk1

/-- The whole allocation loop preserves the invariant. -/
theorem foldl_allocStep_inv (stores : List TMAStore) :
    ∀ {st : AllocState}, AllocInv st → AllocInv (stores.foldl allocStep st) := by
  induction stores with
  | nil => intro st h; exact h
  | cons s rest ih =>
    intro st h
    rw [List.foldl_cons]
    exact ih (allocStep_inv s h)

/-- The allocation phase satisfies the invariant. -/
theorem allocPhase_inv (stores : List TMAStore) : AllocInv (allocPhase stores) :=
  foldl_allocStep_inv stores
    ⟨fun p hp => absurd hp (by intro h; cases h), List.nodup_nil, List.nodup_nil⟩

/-- A key already bound in `allocs` keeps its buffer through a step. -/
theorem allocStep_allocs_mono {st : AllocState} (s : TMAStore)
    {k : List Int × Nat} {b : Nat} (h : assocFind st.allocs k = some b) :
    assocFind (allocStep st s).allocs k = some b := by
  rw [allocStep]
  cases hf : assocFind st.allocs (storeKey s) with
  | some buf => exact h
  | none => exact assocFind_append_some h _

/-- A key already bound in `allocs` keeps its buffer through the loop. -/
theorem foldl_allocs_mono (stores : List TMAStore) :
    ∀ {st : AllocState} {k : List Int × Nat} {b : Nat},
      assocFind st.allocs k = some b →
      assocFind (stores.foldl allocStep st).allocs k = some b := by
  induction stores with
  | nil => intro st k b h; exact h
  | cons s rest ih =>
    intro st k b h
    rw [List.foldl_cons]
    exact ih (allocStep_allocs_mono s h)

/-- A step binds only its own store in `storeToAlloc`. -/
theorem allocStep_storeToAlloc_ne {st : AllocState} {s : TMAStore} {op : Nat}
    (h : s.op ≠ op) :
    assocFind (allocStep st s).storeToAlloc op
      = assocFind st.storeToAlloc op := by
  rw [allocStep]
  cases hf : assocFind st.allocs (storeKey s) with
  | some buf => exact assocFind_update_ne _ h
  | none => exact assocFind_update_ne _ h

/-- The loop does not touch the binding of an operation outside it. -/
theorem foldl_storeToAlloc_ne (stores : List TMAStore) :
    ∀ {st : AllocState} {op : Nat}, op ∉ stores.map (fun s => s.op) →
      assocFind (stores.foldl allocStep st).storeToAlloc op
        = assocFind st.storeToAlloc op := by
  induction stores with
  | nil => intro st op _; rfl
  | cons s rest ih =>
    intro st op h
    rw [List.map_cons] at h
    have h1 : s.op ≠ op := fun e => h (List.mem_cons.mpr (Or.inl e.symm))
    have h2 : op ∉ rest.map (fun s => s.op) :=
      fun hm => h (List.mem_cons_of_mem _ hm)
    rw [List.foldl_cons, ih h2, allocStep_storeToAlloc_ne h1]

/-- One step gives the processed store a buffer: the same one the
key-to-buffer map holds for its key. -/
theorem allocStep_assigns (st : AllocState) (s : TMAStore) :
    ∃ b, assocFind (allocStep st s).allocs (storeKey s) = some b ∧
      assocFind (allocStep st s).storeToAlloc s.op = some b := by
  rw [allocStep]
  cases hf : assocFind st.allocs (storeKey s) with
  | some buf => exact ⟨buf, hf, assocFind_update_self _ _ _⟩
  | none =>
    refine ⟨st.nextBuf, ?_, assocFind_update_self _ _ _⟩
    rw [assocFind_append_none hf, assocFind, if_pos rfl]

/-- After the allocation loop, every processed store is bound in
`storeToAlloc` to exactly the buffer its key is bound to in `allocs`. -/
theorem alloc_main (stores : List TMAStore) :
    ∀ (st : AllocState) (s : TMAStore), s ∈ stores →
      (stores.map (fun s => s.op)).Nodup →
      ∃ b, assocFind (stores.foldl allocStep st).storeToAlloc s.op = some b ∧
        assocFind (stores.foldl allocStep st).allocs (storeKey s) = some b := by
  induction stores with
  | nil => intro st s h; cases h
  | cons s0 rest ih =>
    intro st s hmem hnd
    rw [List.map_cons, List.nodup_cons] at hnd
    rw [List.foldl_cons]
    rcases List.mem_cons.mp hmem with rfl | hmem'
    · rcases allocStep_assigns st s with ⟨b, ha, hsa⟩
      refine ⟨b, ?_, foldl_allocs_mono rest ha⟩
      rw [foldl_storeToAlloc_ne rest hnd.1]
      exact hsa
    · exact ih (allocStep st s0) s hmem' hnd.2

/-- `allocPhase` form of `alloc_main`. -/
theorem allocPhase_assigns {stores : List TMAStore} {s : TMAStore}
    (hmem : s ∈ stores) (hnd : (stores.map (fun s => s.op)).Nodup) :
    ∃ b, assocFind (allocPhase stores).storeToAlloc s.op = some b ∧
      assocFind (allocPhase stores).allocs (storeKey s) = some b :=
  alloc_main stores ⟨[], [], [], 0⟩ s hmem hnd

/-- A filter over a list on which the predicate is everywhere false is
empty. -/
theorem filter_eq_nil_of (p : Event → Bool) :
    ∀ (l : List Event), (∀ e ∈ l, p e = false) → l.filter p = []
  | [], _ => rfl
  | e :: rest, h => by
    rw [List.filter_cons, h e (List.mem_cons_self e rest)]
    simp only [Bool.false_eq_true, if_false]
    exact filter_eq_nil_of p rest (fun x hx => h x (List.mem_cons_of_mem e hx))

/-- No action of a rewrite block is an inspection. -/
theorem blocks_no_inspect (stores : List TMAStore) (f : TMAStore → Nat) :
    ∀ e ∈ stores.flatMap (fun s => storeBlock s (f s)), e.isInspect = false :=
  fun e he => by
    rcases List.mem_flatMap.mp he with ⟨s, _, hb⟩
    exact (mem_storeBlock_spec hb).1

/-- No action of a rewrite block is a collaborator invocation. -/
theorem blocks_no_invoke (stores : List TMAStore) (f : TMAStore → Nat) :
    ∀ e ∈ stores.flatMap (fun s => storeBlock s (f s)), e.isInvoke = false :=
  fun e he => by
    rcases List.mem_flatMap.mp he with ⟨s, _, hb⟩
    exact (mem_storeBlock_spec hb).2.1

/-- A filter that is false on allocations, inspections, waits,
deallocations and the invocation reduces the full trace to the filtered
rewrite blocks. -/
theorem pipelineTrace_filter (body : OpList) (p : Event → Bool)
    (hallo : ∀ e : Event, e.isAlloc = true → p e = false)
    (hins : ∀ e : Event, e.isInspect = true → p e = false)
    (hw : p (Event.wait 0) = false)
    (hde : ∀ b : Nat, p (Event.deallocBuf b) = false)
    (hinv : p (Event.invokeDescPipeline 3) = false) :
    (pipelineTrace body).filter p
      = ((getTMAStores body).flatMap
          (fun s => storeBlock s (bufAssigned (getTMAStores body) s.op))).filter
          p := by
  rw [pipelineTrace]
  simp only [List.filter_append]
  rw [filter_eq_nil_of p _
      (fun e he => hallo e (allocPhase_events_alloc (getTMAStores body) e he)),
    filter_eq_nil_of p _
      (fun e he => hins e (inspectTrail_inspect (getTMAStores body) e he)),
    filter_eq_nil_of p [Event.wait 0]
      (fun e he => by rcases List.mem_singleton.mp he with rfl; exact hw),
    filter_eq_nil_of p
      ((allocPhase (getTMAStores body)).storeToAlloc.map
        (fun q => Event.deallocBuf q.2))
      (fun e he => by
        rcases List.mem_map.mp he with ⟨q, _, rfl⟩
        exact hde q.2),
    filter_eq_nil_of p
      (if (getTMAStores body).any (fun s => !s.desc.hostSide) then
        lowerTMADescriptorCreation
      else [])
      (fun e he => by
        by_cases hc : (getTMAStores body).any (fun s => !s.desc.hostSide)
        · rw [if_pos hc, lowerTMADescriptorCreation] at he
          rcases List.mem_singleton.mp he with rfl
          exact hinv
        · rw [if_neg hc] at he
          cases he)]
  simp

/-- The invocation actions of the full trace are exactly the conditional
invocation of the descriptor-pipelining collaborator. -/
theorem filter_invoke_trace (body : OpList) :
    (pipelineTrace body).filter Event.isInvoke
      = (if (getTMAStores body).any (fun s => !s.desc.hostSide) then
          lowerTMADescriptorCreation
        else []) := by
  rw [pipelineTrace]
  simp only [List.filter_append]
  rw [filter_eq_nil_of _ _
      (fun e he => (isAlloc_spec (allocPhase_events_alloc (getTMAStores body) e he)).2.2.2.2),
    filter_eq_nil_of _ _
      (fun e he => (isInspect_spec (inspectTrail_inspect (getTMAStores body) e he)).2.2.2.2),
    filter_eq_nil_of _ _ (blocks_no_invoke (getTMAStores body) _),
    filter_eq_nil_of _ [Event.wait 0]
      (fun e he => by rcases List.mem_singleton.mp he with rfl; rfl),
    filter_eq_nil_of _ _
      (fun e he => by
        rcases List.mem_map.mp he with ⟨q, _, rfl⟩
        rfl)]
  by_cases hc : (getTMAStores body).any (fun s => !s.desc.hostSide)
  · rw [if_pos hc]
    rfl
  · rw [if_neg hc]
    rfl

/-- One issue instruction per store-like record in the rewrite loop. -/
theorem flatMap_issue_length (f : TMAStore → Nat) :
    ∀ (stores : List TMAStore), (∀ s ∈ stores, s.kind.isStoreLike = true) →
      (stores.flatMap (fun s => issueEventOf s (f s))).length = stores.length
  | [], _ => rfl
  | s :: rest, h => by
    rw [List.flatMap_cons, List.length_append,
      issueEventOf_length (h s (List.mem_cons_self s rest)) (f s),
      flatMap_issue_length f rest (fun x hx => h x (List.mem_cons_of_mem s hx)),
      List.length_cons]
    omega

/-- C4: the Buffer Allocator assigns the identical staging buffer to two
collected stores exactly when their source tensors have identical shape
and element type (distinct buffers otherwise), and for any run of the
transform the key-to-buffer map holds at most one buffer per
(shape, element-type) key. -/
theorem tma_c4_buffer_sharing (body : OpList) (s1 s2 : TMAStore)
    (h1 : s1 ∈ getTMAStores body) (h2 : s2 ∈ getTMAStores body)
    (hnd : ((getTMAStores body).map (fun s => s.op)).Nodup) :
    (bufAssigned (getTMAStores body) s1.op
        = bufAssigned (getTMAStores body) s2.op
      ↔ storeKey s1 = storeKey s2)
    ∧ ((allocPhase (getTMAStores body)).allocs.map Prod.fst).Nodup := by
  rcases allocPhase_assigns h1 hnd with ⟨b1, hs1, ha1⟩
  rcases allocPhase_assigns h2 hnd with ⟨b2, hs2, ha2⟩
  refine ⟨⟨?_, ?_⟩, (allocPhase_inv (getTMAStores body)).2.2⟩
  · intro heq
    rw [bufAssigned, hs1, bufAssigned, hs2] at heq
    simp only [Option.getD_some] at heq
    subst heq
    exact assocFind_inj (allocPhase_inv (getTMAStores body)).2.1 ha1 ha2
  · intro hkeq
    rw [bufAssigned, hs1, bufAssigned, hs2]
    rw [hkeq, ha2] at ha1
    injection ha1 with hb
    rw [hb]

/-- Witness for C4 on stores S1(shape A), S2(shape A), S3(shape B): the
sharing criterion holds for the pairs (S1, S2) and (S1, S3), exactly two
buffers are allocated, S1 and S2 share one and S3 gets the other. -/
theorem tma_c4_witness :
    ((bufAssigned (getTMAStores exBodyThree) exS1.op
        = bufAssigned (getTMAStores exBodyThree) exS2.op
      ↔ storeKey exS1 = storeKey exS2)
      ∧ ((allocPhase (getTMAStores exBodyThree)).allocs.map Prod.fst).Nodup)
    ∧ ((bufAssigned (getTMAStores exBodyThree) exS1.op
        = bufAssigned (getTMAStores exBodyThree) exS3.op
      ↔ storeKey exS1 = storeKey exS3)
      ∧ ((allocPhase (getTMAStores exBodyThree)).allocs.map Prod.fst).Nodup)
    ∧ (allocPhase (getTMAStores exBodyThree)).allocs.length = 2
    ∧ bufAssigned (getTMAStores exBodyThree) 1
        = bufAssigned (getTMAStores exBodyThree) 2
    ∧ bufAssigned (getTMAStores exBodyThree) 1
        ≠ bufAssigned (getTMAStores exBodyThree) 3 :=
  ⟨tma_c4_buffer_sharing exBodyThree exS1 exS2 (by decide) (by decide)
      (by decide),
    tma_c4_buffer_sharing exBodyThree exS1 exS3 (by decide) (by decide)
      (by decide),
    by decide, by decide, by decide⟩

/-- C5: for a loop with zero eligible stores the transform performs no
action at all — no allocation, wait, fence, issue or deallocation, no
collaborator invocation — and returns false. -/
theorem tma_c5_noop (translate : TranslateFn) (body : OpList)
    (h : getTMAStores body = []) :
    pipelineTMAStores translate body = some (false, []) := by
  rw [pipelineTMAStores, if_pos (by rw [h]; rfl)]

/-- Witness for C5 on a loop whose only store sits inside a nested loop:
nothing is collected and the transform is a no-op returning false. -/
theorem tma_c5_witness :
    getTMAStores exBodyNoStore = []
    ∧ pipelineTMAStores idTranslate exBodyNoStore = some (false, []) :=
  ⟨by decide, tma_c5_noop idTranslate exBodyNoStore (by decide)⟩

/-- C7: the collector records, in discovery order, exactly the store-like
operations of the pre-order walk that are not under a nested loop (it
agrees with the specification-side collector), and skipping a nested
loop's subtree leaves the result as if the nested loop were absent, so a
store inside a nested loop is never collected. -/
theorem tma_c7_collector :
    (∀ body : OpList, getTMAStores body = specList false body)
    ∧ (∀ (pre : OpList) (id : Nat) (cs post : OpList),
        getTMAStores (OpList.append pre (.cons (.mk id .forOp cs) post))
          = getTMAStores (OpList.append pre post)) := by
  constructor
  · intro body
    exact collectList_spec body
  · intro pre id cs post
    rw [getTMAStores, getTMAStores, collectList_append, collectList_append,
      collectList, collectOp_forOp, List.nil_append]

/-- C9: for every store of one of the three known variants — in
particular every store the collector admits — the rewriter's closed case
analysis reaches a defined branch: the final unchecked scatter cast never
fails. -/
theorem tma_c9_closed_cases (translate : TranslateFn) (s : TMAStore) (a : Nat)
    (h : s.kind.isStoreLike = true) :
    (createTMAAsyncCopy translate s a).isSome = true := by
  rw [createTMAAsyncCopy_eq translate s a h]
  rfl

/-- Witness for C9 on a scatter store, the variant handled by the final
unchecked cast. -/
theorem tma_c9_witness :
    OpKind.isStoreLike exScatterStore.kind = true
    ∧ (createTMAAsyncCopy idTranslate exScatterStore 0).isSome = true :=
  ⟨by decide, tma_c9_closed_cases idTranslate exScatterStore 0 (by decide)⟩

/-- C1: every collected store is replaced by the contiguous ordered
sequence wait-for-zero-outstanding, stage of the source into the assigned
buffer, visibility fence, the store's single variant-specific issue, with
nothing interleaved, immediately followed by the erasure of the original
store. -/
theorem tma_c1_protocol (translate : TranslateFn) (body : OpList)
    (b : Bool) (tr : List Event) (s : TMAStore)
    (hp : pipelineTMAStores translate body = some (b, tr))
    (hs : s ∈ getTMAStores body) :
    ∃ pre post,
      tr = pre
        ++ ([Event.wait 0,
              Event.stage s.src.id (bufAssigned (getTMAStores body) s.op),
              Event.fence false]
          ++ issueEventOf s (bufAssigned (getTMAStores body) s.op)
          ++ [Event.eraseOp s.op])
        ++ post
      ∧ (issueEventOf s (bufAssigned (getTMAStores body) s.op)).length = 1 := by
  have hne : getTMAStores body ≠ [] := by
    intro h0
    rw [h0] at hs
    cases hs
  have h' : some (b, tr) = some (true, pipelineTrace body) :=
    hp.symm.trans (pipeline_eq translate body hne)
  have htr : tr = pipelineTrace body := congrArg Prod.snd (Option.some.inj h')
  subst htr
  rcases List.append_of_mem hs with ⟨l1, l2, hsplit⟩
  refine ⟨(allocPhase (getTMAStores body)).events
      ++ inspectTrail (getTMAStores body)
      ++ l1.flatMap
          (fun x => storeBlock x (bufAssigned (getTMAStores body) x.op)),
    l2.flatMap (fun x => storeBlock x (bufAssigned (getTMAStores body) x.op))
      ++ [Event.wait 0]
      ++ (allocPhase (getTMAStores body)).storeToAlloc.map
          (fun q => Event.deallocBuf q.2)
      ++ (if (getTMAStores body).any (fun x => !x.desc.hostSide) then
            lowerTMADescriptorCreation
          else []),
    ?_, issueEventOf_length (getTMAStores_storeLike body s hs) _⟩
  conv_lhs => rw [pipelineTrace]
  rw [hsplit, List.flatMap_append, List.flatMap_cons]
  simp only [storeBlock, List.append_assoc]

/-- Witness for C1 on a one-store loop. -/
theorem tma_c1_witness :
    ∃ pre post,
      pipelineTrace exBodyOne
        = pre
          ++ ([Event.wait 0,
                Event.stage exSOne.src.id
                  (bufAssigned (getTMAStores exBodyOne) exSOne.op),
                Event.fence false]
            ++ issueEventOf exSOne
                (bufAssigned (getTMAStores exBodyOne) exSOne.op)
            ++ [Event.eraseOp exSOne.op])
          ++ post
        ∧ (issueEventOf exSOne
            (bufAssigned (getTMAStores exBodyOne) exSOne.op)).length = 1 :=
  tma_c1_protocol idTranslate exBodyOne true (pipelineTrace exBodyOne) exSOne
    (by decide) (by decide)

/-- C6: for a loop with at least one collected store the transform
returns true, erases exactly the original stores (one erasure per
collected store, in order), and issues exactly one asynchronous
instruction of the matching variant per store. -/
theorem tma_c6_replacement (translate : TranslateFn) (body : OpList)
    (b : Bool) (tr : List Event)
    (hp : pipelineTMAStores translate body = some (b, tr))
    (hne : getTMAStores body ≠ []) :
    b = true
    ∧ tr.filter Event.isErase
        = (getTMAStores body).map (fun s => Event.eraseOp s.op)
    ∧ tr.filter Event.isIssue
        = (getTMAStores body).flatMap
            (fun s => issueEventOf s (bufAssigned (getTMAStores body) s.op))
    ∧ (tr.filter Event.isIssue).length = (getTMAStores body).length := by
  have h' : some (b, tr) = some (true, pipelineTrace body) :=
    hp.symm.trans (pipeline_eq translate body hne)
  have h'' := Option.some.inj h'
  have hb : b = true := congrArg Prod.fst h''
  have htr : tr = pipelineTrace body := congrArg Prod.snd h''
  subst htr
  have hissue : (pipelineTrace body).filter Event.isIssue
      = (getTMAStores body).flatMap
          (fun s => issueEventOf s (bufAssigned (getTMAStores body) s.op)) := by
    rw [pipelineTrace_filter body Event.isIssue
        (fun e he => (isAlloc_spec he).2.1)
        (fun e he => (isInspect_spec he).2.1)
        rfl (fun _ => rfl) rfl,
      filter_blocks_issue]
  refine ⟨hb, ?_, hissue, ?_⟩
  · rw [pipelineTrace_filter body Event.isErase
        (fun e he => (isAlloc_spec he).2.2.1)
        (fun e he => (isInspect_spec he).2.2.1)
        rfl (fun _ => rfl) rfl,
      filter_blocks_erase]
  · rw [hissue, flatMap_issue_length _ _ (getTMAStores_storeLike body)]

/-- Witness for C6 on a loop with one store of each variant. -/
theorem tma_c6_witness :
    true = true
    ∧ (pipelineTrace exBodyMixed).filter Event.isErase
        = (getTMAStores exBodyMixed).map (fun s => Event.eraseOp s.op)
    ∧ (pipelineTrace exBodyMixed).filter Event.isIssue
        = (getTMAStores exBodyMixed).flatMap
            (fun s => issueEventOf s (bufAssigned (getTMAStores exBodyMixed) s.op))
    ∧ ((pipelineTrace exBodyMixed).filter Event.isIssue).length
        = (getTMAStores exBodyMixed).length :=
  tma_c6_replacement idTranslate exBodyMixed true (pipelineTrace exBodyMixed)
    (by decide) (by decide)

/-- C8: the descriptor-pipelining collaborator is invoked exactly when
some collected store's descriptor is device-side (not host-side), and any
invocation uses the fixed buffering depth of three stages. -/
theorem tma_c8_trigger (translate : TranslateFn) (body : OpList)
    (b : Bool) (tr : List Event)
    (hp : pipelineTMAStores translate body = some (b, tr)) :
    ((∃ d, Event.invokeDescPipeline d ∈ tr)
      ↔ ∃ s ∈ getTMAStores body, s.desc.hostSide = false)
    ∧ ∀ d, Event.invokeDescPipeline d ∈ tr → d = 3 := by
  by_cases hne : getTMAStores body = []
  · rw [pipelineTMAStores, if_pos (by rw [hne]; rfl)] at hp
    have htr : tr = [] := (congrArg Prod.snd (Option.some.inj hp)).symm
    subst htr
    refine ⟨⟨?_, ?_⟩, ?_⟩
    · rintro ⟨d, hd⟩
      cases hd
    · rintro ⟨s, hsmem, _⟩
      rw [hne] at hsmem
      cases hsmem
    · intro d hd
      cases hd
  · have htr : tr = pipelineTrace body :=
      congrArg Prod.snd
        (Option.some.inj (hp.symm.trans (pipeline_eq translate body hne)))
    subst htr
    refine ⟨⟨?_, ?_⟩, ?_⟩
    · rintro ⟨d, hd⟩
      have hmem : Event.invokeDescPipeline d
          ∈ (pipelineTrace body).filter Event.isInvoke :=
        List.mem_filter.mpr ⟨hd, rfl⟩
      rw [filter_invoke_trace body] at hmem
      by_cases hc : (getTMAStores body).any (fun s => !s.desc.hostSide)
      · rcases List.any_eq_true.mp hc with ⟨s, hsmem, hsb⟩
        exact ⟨s, hsmem, by simpa using hsb⟩
      · rw [if_neg hc] at hmem
        cases hmem
    · rintro ⟨s, hsmem, hsb⟩
      have hc : (getTMAStores body).any (fun x => !x.desc.hostSide) = true :=
        List.any_eq_true.mpr ⟨s, hsmem, by rw [hsb]; rfl⟩
      refine ⟨3, ?_⟩
      have hmem : Event.invokeDescPipeline 3
          ∈ (pipelineTrace body).filter Event.isInvoke := by
        rw [filter_invoke_trace body, if_pos hc, lowerTMADescriptorCreation]
        exact List.mem_singleton.mpr rfl
      exact (List.mem_filter.mp hmem).1
    · intro d hd
      have hmem : Event.invokeDescPipeline d
          ∈ (pipelineTrace body).filter Event.isInvoke :=
        List.mem_filter.mpr ⟨hd, rfl⟩
      rw [filter_invoke_trace body] at hmem
      by_cases hc : (getTMAStores body).any (fun s => !s.desc.hostSide)
      · rw [if_pos hc, lowerTMADescriptorCreation] at hmem
        have h3 := List.mem_singleton.mp hmem
        injection h3
      · rw [if_neg hc] at hmem
        cases hmem

/-- Witness for C8 on a loop holding a device-side descriptor. -/
theorem tma_c8_witness :
    ((∃ d, Event.invokeDescPipeline d ∈ pipelineTrace exBodyMixed)
      ↔ ∃ s ∈ getTMAStores exBodyMixed, s.desc.hostSide = false)
    ∧ ∀ d, Event.invokeDescPipeline d ∈ pipelineTrace exBodyMixed → d = 3 :=
  tma_c8_trigger idTranslate exBodyMixed true (pipelineTrace exBodyMixed)
    (by decide)

/-- C10: the transform's trace splits into a prefix holding no erasure
(and in particular all descriptor inspections) followed by a suffix
holding no inspection, so no descriptor is inspected after any store has
been deleted; moreover the trigger decision coincides with the
device-side test over the originally collected stores, unaffected by the
rewriting. -/
theorem tma_c10_inspect_before_erase (translate : TranslateFn) (body : OpList)
    (b : Bool) (tr : List Event)
    (hp : pipelineTMAStores translate body = some (b, tr)) :
    (∃ pre post, tr = pre ++ post
      ∧ (∀ e ∈ pre, e.isErase = false)
      ∧ (∀ e ∈ post, e.isInspect = false))
    ∧ (Event.invokeDescPipeline 3 ∈ tr
        ↔ (getTMAStores body).any (fun s => !s.desc.hostSide) = true) := by
  by_cases hne : getTMAStores body = []
  · rw [pipelineTMAStores, if_pos (by rw [hne]; rfl)] at hp
    have htr : tr = [] := (congrArg Prod.snd (Option.some.inj hp)).symm
    subst htr
    refine ⟨⟨[], [], rfl, ?_, ?_⟩, ?_, ?_⟩
    · intro e he
      cases he
    · intro e he
      cases he
    · intro h
      cases h
    · intro h
      rw [hne] at h
      cases h
  · have htr : tr = pipelineTrace body :=
      congrArg Prod.snd
        (Option.some.inj (hp.symm.trans (pipeline_eq translate body hne)))
    subst htr
    constructor
    · refine ⟨(allocPhase (getTMAStores body)).events
          ++ inspectTrail (getTMAStores body),
        (getTMAStores body).flatMap
            (fun s => storeBlock s (bufAssigned (getTMAStores body) s.op))
          ++ [Event.wait 0]
          ++ (allocPhase (getTMAStores body)).storeToAlloc.map
              (fun q => Event.deallocBuf q.2)
          ++ (if (getTMAStores body).any (fun s => !s.desc.hostSide) then
                lowerTMADescriptorCreation
              else []),
        ?_, ?_, ?_⟩
      · rw [pipelineTrace]
        simp only [List.append_assoc]
      · intro e he
        rcases List.mem_append.mp he with h' | h'
        · exact (isAlloc_spec (allocPhase_events_alloc _ e h')).2.2.1
        · exact (isInspect_spec (inspectTrail_inspect _ e h')).2.2.1
      · intro e he
        rcases List.mem_append.mp he with h' | h'
        · rcases List.mem_append.mp h' with h'' | h''
          · rcases List.mem_append.mp h'' with h3 | h3
            · exact blocks_no_inspect _ _ e h3
            · rcases List.mem_singleton.mp h3 with rfl
              rfl
          · rcases List.mem_map.mp h'' with ⟨q, _, rfl⟩
            rfl
        · by_cases hc : (getTMAStores body).any (fun s => !s.desc.hostSide)
          · rw [if_pos hc, lowerTMADescriptorCreation] at h'
            rcases List.mem_singleton.mp h' with rfl
            rfl
          · rw [if_neg hc] at h'
            cases h'
    · constructor
      · intro hd
        have hmem : Event.invokeDescPipeline 3
            ∈ (pipelineTrace body).filter Event.isInvoke :=
          List.mem_filter.mpr ⟨hd, rfl⟩
        rw [filter_invoke_trace body] at hmem
        by_cases hc : (getTMAStores body).any (fun s => !s.desc.hostSide)
        · exact hc
        · rw [if_neg hc] at hmem
          cases hmem
      · intro hc
        have hmem : Event.invokeDescPipeline 3
            ∈ (pipelineTrace body).filter Event.isInvoke := by
          rw [filter_invoke_trace body, if_pos hc, lowerTMADescriptorCreation]
          exact List.mem_singleton.mpr rfl
        exact (List.mem_filter.mp hmem).1

/-- Witness for C10 on a loop with stores of every variant. -/
theorem tma_c10_witness :
    (∃ pre post, pipelineTrace exBodyMixed = pre ++ post
      ∧ (∀ e ∈ pre, e.isErase = false)
      ∧ (∀ e ∈ post, e.isInspect = false))
    ∧ (Event.invokeDescPipeline 3 ∈ pipelineTrace exBodyMixed
        ↔ (getTMAStores exBodyMixed).any (fun s => !s.desc.hostSide) = true) :=
  tma_c10_inspect_before_erase idTranslate exBodyMixed true
    (pipelineTrace exBodyMixed) (by decide)

/-- C2 fails on the code: on a loop with two stores of identical shape
and element type exactly one staging buffer is allocated, yet the
epilogue — iterating the per-store map `storeToAlloc`, not the
key-to-buffer map — emits two deallocations of that same buffer. -/
theorem tma_c2_code_bug :
    (allocPhase (getTMAStores exBodyTwo)).allocs.length = 1
    ∧ pipelineTMAStores idTranslate exBodyTwo
        = some (true, pipelineTrace exBodyTwo)
    ∧ (pipelineTrace exBodyTwo).filter Event.isDealloc
        = [Event.deallocBuf 0, Event.deallocBuf 0] := by
  decide

/-- C3 fails on the code: with a translation shifting every coordinate by
one, the emitted async copy and async reduce still carry the original
untranslated index 5 — the computed translation (which yields 6) is
discarded — and no instruction with the translated index exists in the
trace. -/
theorem tma_c3_code_bug :
    shiftTranslate exDescH.encoding [5] = [6]
    ∧ pipelineTMAStores shiftTranslate exBodyTrans
        = some (true, pipelineTrace exBodyTrans)
    ∧ (pipelineTrace exBodyTrans).filter Event.isIssue
        = [Event.issueCopy exDescH [5] 0, Event.issueReduce 7 exDescH [5] 0]
    ∧ Event.issueCopy exDescH [6] 0 ∉ pipelineTrace exBodyTrans
    ∧ Event.issueReduce 7 exDescH [6] 0 ∉ pipelineTrace exBodyTrans := by
  decide
